import Mathlib

/-!
Verification of the `ctxlog` context-scoped logging library.

Shallow embedding of the Go sources (`ctxlog.go`, `scope.go`, the option
definitions, and the scope registry).  Go `map[string]bool` values are
modelled extensionally as association lists (first match wins), Go pointers
into the registry are modelled as indices into an arena (`Registry.store`),
and the context enablement maps live in an explicit heap (`CtxHeap`) so that
the copy-on-write behaviour of `EnableScope` is observable.  `uint64` words
are `Nat` with an explicit `% 2 ^ 64`; the IEEE-754 conversion in
`cryptoRandFloat64` is exact (the shifted word fits in 53 bits), so floats
are modelled as `ℚ`.
-/

namespace Ctxlog

/-- `slog.Level` is an integer (Debug = -4, Info = 0, Warn = 4, Error = 8). -/
abbrev Level := Int

/-- A context-local enablement map (`map[string]bool`), modelled as an
association list where lookup takes the first matching key. -/
abbrev EnableMap := List (String × Bool)

/-- The heap of context enablement maps.  `EnableScope` stores a freshly
allocated map into the derived context, so aliasing between context values
is modelled by references (indices) into this heap. -/
abbrev CtxHeap := List EnableMap

/-- A `context.Context` as the core consumes it: the value stored under
`enabledScopesKey` (a reference into the heap, or absent), the value under
`logLevelKey`, and the value under `loggerKey` (a logger identifier). -/
structure Ctx where
  scopesRef : Option Nat
  logLevel : Option Level
  logger : Option Nat
deriving Repr, DecidableEq

/-- Process-wide state read by `Scope.isActive`: the key set of the global
`enabledScopes` map, and the set of environment variable names that are set
(`os.LookupEnv` existence, not value). -/
structure GlobalEnv where
  enabledScopes : List String
  osEnv : List String
deriving Repr, DecidableEq

/-- A `Scope` value as `isActive` consumes it: name, `EnabledBy` environment
variables, optional `EnabledMinLevel` threshold, and the parent pointer
(`nil` for roots). -/
inductive Scope where
  | root (name : String) (envVars : List String) (logLevel : Option Level)
  | child (name : String) (envVars : List String) (logLevel : Option Level) (parent : Scope)
deriving Repr, DecidableEq

def Scope.name : Scope → String
  | .root n _ _ => n
  | .child n _ _ _ => n

def Scope.envVars : Scope → List String
  | .root _ ev _ => ev
  | .child _ ev _ _ => ev

def Scope.logLevel : Scope → Option Level
  | .root _ _ ll => ll
  | .child _ _ ll _ => ll

def Scope.parentScope : Scope → Option Scope
  | .root _ _ _ => none
  | .child _ _ _ p => some p

/-- `ctx.Value(enabledScopesKey).(map[string]bool)`: the context enablement
map, when present and when the reference is live in the heap. -/
def readCtxMap (h : CtxHeap) (ctx : Ctx) : Option EnableMap :=
  match ctx.scopesRef with
  | some r => h[r]?
  | none => none

/-- Signal 1 of `Scope.isActive`: the context map has an entry for the
scope name and that entry is `true` (`exists && enabled`). -/
def ctxEnabled (name : String) (ctx : Ctx) (h : CtxHeap) : Bool :=
  match readCtxMap h ctx with
  | some m => (m.lookup name).getD false
  | none => false

/-- Signal 2 of `Scope.isActive`: the scope name is a key of the global
`enabledScopes` map. -/
def globalEnabled (name : String) (g : GlobalEnv) : Bool :=
  g.enabledScopes.contains name

/-- Signal 4 of `Scope.isActive`: the scope declares a minimum level, the
context carries a current level, and `currentLevel >= *s.logLevel`. -/
def levelActive (ll : Option Level) (ctx : Ctx) : Bool :=
  match ll, ctx.logLevel with
  | some minLevel, some currentLevel => decide (minLevel ≤ currentLevel)
  | _, _ => false

/-- Signal 5 of `Scope.isActive`: some declared environment variable is set
(existence via `os.LookupEnv`, empty values count). -/
def envActive (envVars : List String) (g : GlobalEnv) : Bool :=
  envVars.any (fun v => g.osEnv.contains v)

/-- `Scope.isActive` from `scope.go`: the five signals checked in source
order with short-circuit OR; signal 3 is the recursive parent check. -/
def Scope.isActive : Scope → Ctx → CtxHeap → GlobalEnv → Bool
  | .root n ev ll, ctx, h, g =>
      ctxEnabled n ctx h || globalEnabled n g || levelActive ll ctx || envActive ev g
  | .child n ev ll p, ctx, h, g =>
      ctxEnabled n ctx h || globalEnabled n g || Scope.isActive p ctx h g
        || levelActive ll ctx || envActive ev g

/-- Go map assignment `m[k] = v`, extensionally on association lists. -/
def mapSet (m : EnableMap) (k : String) (v : Bool) : EnableMap :=
  (k, v) :: m.filter (fun p => p.1 != k)

/-- `EnableScope` from `scope.go`: copy the existing context map (or start
from an empty one), set each scope name to `true`, store the new map in a
fresh heap cell and return the derived context pointing at it.  The heap
cell of the original context is never written. -/
def EnableScope (h : CtxHeap) (ctx : Ctx) (scopes : List Scope) : CtxHeap × Ctx :=
  let base : EnableMap :=
    match readCtxMap h ctx with
    | some m => m
    | none => []
  let newMap := scopes.foldl (fun m s => mapSet m s.name true) base
  (h ++ [newMap], { ctx with scopesRef := some h.length })

/-! ## Random sampling engine (`ctxlog.go`) -/

def randPoolSize : Nat := 256

def ieee754MantissaBits : Nat := 53

def ieee754MantissaShift : Nat := 11

/-- The buffered secure random pool: a buffer of `uint64` words and a
cursor.  `pos = buffer.length` (the initial state uses `randPoolSize`)
means the buffer is exhausted and the next draw refills. -/
structure RandPool where
  buffer : List Nat
  pos : Nat
deriving Repr, DecidableEq

/-- `randPool.getUint64`.  The entropy source is explicit: `some ws` is the
buffer content a successful `refillBuffer` would install (256 big-endian
`uint64` words), `none` is a `crypto/rand` read error.  On a failed refill
the code returns the sentinel `0` and leaves the pool untouched; otherwise
it reads `buffer[pos]` and advances the cursor.  Words are `uint64`, hence
the explicit `% 2 ^ 64`. -/
def RandPool.getUint64 (rp : RandPool) (entropy : Option (List Nat)) : Nat × RandPool :=
  if rp.buffer.length ≤ rp.pos then
    match entropy with
    | none => (0, rp)
    | some ws => (ws.getD 0 0 % 2 ^ 64, { buffer := ws, pos := 1 })
  else
    (rp.buffer.getD rp.pos 0 % 2 ^ 64, { buffer := rp.buffer, pos := rp.pos + 1 })

/-- The exact value of `float64(w >> 11) * (1.0 / (1 << 53))`: the shifted
word fits in 53 bits, so the conversion and scaling are exact and the
result is faithfully a rational. -/
def wordToFloat (w : Nat) : ℚ :=
  ((w >>> ieee754MantissaShift : Nat) : ℚ) * (1 / 2 ^ ieee754MantissaBits)

/-- `cryptoRandFloat64`: draw a word from the pool and map it into `[0,1)`. -/
def cryptoRandFloat64 (rp : RandPool) (entropy : Option (List Nat)) : ℚ × RandPool :=
  let wr := rp.getUint64 entropy
  (wordToFloat wr.1, wr.2)

/-! ## Logger resolution (`From` in `ctxlog.go`, options from the option file) -/

/-- A resolved logger: either the discard logger or a live logger (the one
bound in the context or `slog.Default()`, identified by a number), possibly
annotated with the `ctxlog.scope` field. -/
inductive Logger where
  | discard
  | live (base : Nat) (scopeName : Option String)
deriving Repr, DecidableEq

def createDiscardLogger : Logger := .discard

/-- The `config` struct filled by the options.  The Go condition is a
thunk `func() bool`; it is modelled by the value it would return, plus the
separate invocation flag `From` reports. -/
structure Config where
  scope : Option Scope
  sampling : Option ℚ
  condition : Option Bool
  fastRand : Bool
deriving Repr, DecidableEq

/-- The `Option` interface: one constructor per option implementation
(`Scope.apply`, `samplingOption`, `conditionOption`, `fastRandOption`). -/
inductive FromOption where
  | scopeOpt (s : Scope)
  | samplingOpt (rate : ℚ)
  | condOpt (result : Bool)
  | fastRandOpt
deriving Repr, DecidableEq

/-- The `apply` methods of the four option implementations. -/
def FromOption.applyOpt (c : Config) : FromOption → Config
  | .scopeOpt s => { c with scope := some s }
  | .samplingOpt r => { c with sampling := some r }
  | .condOpt b => { c with condition := some b }
  | .fastRandOpt => { c with fastRand := true }

/-- `WithSampling` stores the rate as given: no validation, no clamping. -/
def WithSampling (rate : ℚ) : FromOption := .samplingOpt rate

def WithCond (result : Bool) : FromOption := .condOpt result

def WithFastRand : FromOption := .fastRandOpt

def scopeOption (s : Scope) : FromOption := .scopeOpt s

/-- The option loop at the top of `From`. -/
def buildConfig (opts : List FromOption) : Config :=
  opts.foldl FromOption.applyOpt ⟨none, none, none, false⟩

/-- The condition gate at the end of `From`.  The third component of the
result records whether the condition thunk was invoked. -/
def checkCondition (result : Logger) (cfg : Config) (rp : RandPool) :
    Logger × RandPool × Bool :=
  match cfg.condition with
  | some b => if b then (result, rp, true) else (.discard, rp, true)
  | none => (result, rp, false)

/-- The sampling gate of `From`: draw from the fast source (`fastDraw`, the
value `mathrand.Float64()` would return) or from the secure pool, and
discard when `randVal > *cfg.sampling`. -/
def checkSampling (result : Logger) (cfg : Config) (rp : RandPool)
    (entropy : Option (List Nat)) (fastDraw : ℚ) : Logger × RandPool × Bool :=
  match cfg.sampling with
  | some rate =>
      let dr := if cfg.fastRand then (fastDraw, rp) else cryptoRandFloat64 rp entropy
      if dr.1 > rate then (.discard, dr.2, false)
      else checkCondition result cfg dr.2
  | none => checkCondition result cfg rp

/-- `From` from `ctxlog.go`: build the config, take the base logger from
the context (or the default logger `0`), gate on scope activation, then
sampling, then the condition.  Returns the logger, the resulting pool
state, and whether the condition thunk was invoked. -/
def From (ctx : Ctx) (h : CtxHeap) (g : GlobalEnv) (opts : List FromOption)
    (rp : RandPool) (entropy : Option (List Nat)) (fastDraw : ℚ) :
    Logger × RandPool × Bool :=
  let cfg := buildConfig opts
  let base := Logger.live (ctx.logger.getD 0) none
  match cfg.scope with
  | some s =>
      if s.isActive ctx h g then
        checkSampling (Logger.live (ctx.logger.getD 0) (some s.name)) cfg rp entropy fastDraw
      else (createDiscardLogger, rp, false)
  | none => checkSampling base cfg rp entropy fastDraw

/-! ## Scope registry (`NewScope`, `NewChild` in `scope.go`)

The registry owns every `Scope` record for the process lifetime; a Go
pointer `*Scope` is modelled as an index into the arena `Registry.store`,
so pointer identity is index equality and the in-place writes of
`NewChild` (`child.parent = s`, `s.children = append(...)`) are updates of
arena cells. -/

/-- The mutable fields of a registered `Scope` record. -/
structure ScopeData where
  name : String
  envVars : List String
  logLevel : Option Level
  parentId : Option Nat
  children : List Nat
deriving Repr, DecidableEq

instance : Inhabited ScopeData := ⟨⟨"", [], none, none, []⟩⟩

/-- `ScopeOption`: `EnabledBy` replaces the env-var list, `EnabledMinLevel`
sets the level threshold. -/
inductive ScopeOption where
  | enabledBy (envVars : List String)
  | enabledMinLevel (level : Level)
deriving Repr, DecidableEq

/-- The `scopeConfig` struct. -/
structure ScopeConfig where
  envVars : List String
  logLevel : Option Level
deriving Repr, DecidableEq

def ScopeOption.applyOpt (c : ScopeConfig) : ScopeOption → ScopeConfig
  | .enabledBy vs => { c with envVars := vs }
  | .enabledMinLevel l => { c with logLevel := some l }

/-- The process-wide registry: `globalScopes` (name to record index) plus
the arena of records. -/
structure Registry where
  scopes : List (String × Nat)
  store : List ScopeData
deriving Repr, DecidableEq

/-- `NewScope`: if the name is registered return the existing record (the
options are not even applied); otherwise apply the options, allocate a
fresh record with no parent and no children, and register it. -/
def NewScope (reg : Registry) (name : String) (opts : List ScopeOption) :
    Nat × Registry :=
  match reg.scopes.lookup name with
  | some id => (id, reg)
  | none =>
      let cfg := opts.foldl ScopeOption.applyOpt ⟨[], none⟩
      let id := reg.store.length
      (id, { scopes := (name, id) :: reg.scopes,
             store := reg.store ++ [⟨name, cfg.envVars, cfg.logLevel, none, []⟩] })

/-- The write `child.parent = s` in `NewChild`. -/
def Registry.setParent (reg : Registry) (cid pid : Nat) : Registry :=
  { reg with
    store := reg.store.set cid { reg.store.getD cid default with parentId := some pid } }

/-- The write `s.children = append(s.children, child)` in `NewChild`. -/
def Registry.appendChild (reg : Registry) (pid cid : Nat) : Registry :=
  let p := reg.store.getD pid default
  { reg with store := reg.store.set pid { p with children := p.children ++ [cid] } }

/-- `Scope.NewChild`: build the dotted full name, delegate to `NewScope`,
then unconditionally (re)assign the child's parent pointer and append the
child to the parent's `children` list — these two writes happen on every
call, not only when the full name was fresh. -/
def NewChild (reg : Registry) (pid : Nat) (name : String) (opts : List ScopeOption) :
    Nat × Registry :=
  let fullName := (reg.store.getD pid default).name ++ "." ++ name
  let cr := NewScope reg fullName opts
  let reg2 := cr.2.setParent cr.1 pid
  let reg3 := reg2.appendChild pid cr.1
  (cr.1, reg3)

/-- Registry well-formedness: every registered name maps to a live arena
index whose record carries that name. -/
def Registry.WF (reg : Registry) : Prop :=
  ∀ p ∈ reg.scopes, p.2 < reg.store.length ∧ (reg.store.getD p.2 default).name = p.1

instance (reg : Registry) : Decidable reg.WF := by
  unfold Registry.WF
  infer_instance

/-! ## Helper lemmas -/

attribute [local semireducible] Rat.mul Rat.inv Rat.add Rat.sub

theorem wordToFloat_nonneg (w : Nat) : 0 ≤ wordToFloat w := by
  unfold wordToFloat
  positivity

theorem wordToFloat_lt_one (w : Nat) (hw : w < 2 ^ 64) : wordToFloat w < 1 := by
  unfold wordToFloat ieee754MantissaShift ieee754MantissaBits
  have hsh : w >>> 11 < 2 ^ 53 := by
    rw [Nat.shiftRight_eq_div_pow]
    rw [Nat.div_lt_iff_lt_mul (by norm_num : (0 : Nat) < 2 ^ 11)]
    calc w < 2 ^ 64 := hw
      _ = 2 ^ 53 * 2 ^ 11 := by norm_num
  calc ((w >>> 11 : Nat) : ℚ) * (1 / 2 ^ 53)
      < (2 ^ 53 : ℚ) * (1 / 2 ^ 53) := by
        apply mul_lt_mul_of_pos_right _ (by norm_num)
        exact_mod_cast hsh
    _ = 1 := by norm_num

theorem getUint64_lt_size (rp : RandPool) (entropy : Option (List Nat)) :
    (rp.getUint64 entropy).1 < 2 ^ 64 := by
  unfold RandPool.getUint64
  split
  · cases entropy with
    | none => norm_num
    | some ws => exact Nat.mod_lt _ (by norm_num)
  · exact Nat.mod_lt _ (by norm_num)

theorem cryptoDraw_nonneg (rp : RandPool) (entropy : Option (List Nat)) :
    0 ≤ (cryptoRandFloat64 rp entropy).1 :=
  wordToFloat_nonneg _

theorem cryptoDraw_lt_one (rp : RandPool) (entropy : Option (List Nat)) :
    (cryptoRandFloat64 rp entropy).1 < 1 :=
  wordToFloat_lt_one _ (getUint64_lt_size rp entropy)

/-- Evaluation of `From` when the only option is a sampling rate and the
secure source is used. -/
theorem from_sampling_secure (ctx : Ctx) (h : CtxHeap) (g : GlobalEnv) (rate : ℚ)
    (rp : RandPool) (entropy : Option (List Nat)) (fastDraw : ℚ) :
    From ctx h g [WithSampling rate] rp entropy fastDraw =
      (if (cryptoRandFloat64 rp entropy).1 > rate then Logger.discard
        else Logger.live (ctx.logger.getD 0) none,
        (cryptoRandFloat64 rp entropy).2, false) := by
  simp only [From, buildConfig, WithSampling, List.foldl, FromOption.applyOpt,
    checkSampling, checkCondition]
  by_cases hc : rate < (cryptoRandFloat64 rp entropy).1 <;> simp [hc]

/-- Evaluation of `From` when the options are a sampling rate and the fast
random source. -/
theorem from_sampling_fast (ctx : Ctx) (h : CtxHeap) (g : GlobalEnv) (rate : ℚ)
    (rp : RandPool) (entropy : Option (List Nat)) (fastDraw : ℚ) :
    From ctx h g [WithSampling rate, WithFastRand] rp entropy fastDraw =
      (if fastDraw > rate then Logger.discard
        else Logger.live (ctx.logger.getD 0) none, rp, false) := by
  simp only [From, buildConfig, WithSampling, WithFastRand, List.foldl, FromOption.applyOpt,
    checkSampling, checkCondition]
  by_cases hc : rate < fastDraw <;> simp [hc]

theorem parent_active_child_active {s p : Scope} (ctx : Ctx) (h : CtxHeap)
    (g : GlobalEnv) (hp : s.parentScope = some p)
    (hact : p.isActive ctx h g = true) : s.isActive ctx h g = true := by
  cases s with
  | root n ev ll => simp [Scope.parentScope] at hp
  | child n ev ll q =>
      simp only [Scope.parentScope, Option.some.injEq] at hp
      subst hp
      simp [Scope.isActive, hact]

/-! ## Claims about the activation engine -/

/-- The strict-ancestor relation induced by the parent pointers. -/
inductive IsAncestor : Scope → Scope → Prop
  | parent {p s : Scope} : s.parentScope = some p → IsAncestor p s
  | trans {a p s : Scope} : s.parentScope = some p → IsAncestor a p → IsAncestor a s

/-- C2: if any ancestor of a scope (in particular its parent) is active in a
context, the scope itself is active in that context, whatever signal made
the ancestor active, through chains of arbitrary depth. -/
theorem ancestor_active_descendant_active {a s : Scope} (ctx : Ctx) (h : CtxHeap)
    (g : GlobalEnv) (hanc : IsAncestor a s) (hact : a.isActive ctx h g = true) :
    s.isActive ctx h g = true := by
  induction hanc with
  | parent hp => exact parent_active_child_active ctx h g hp hact
  | trans hp _ ih => exact parent_active_child_active ctx h g hp ih

/-- Witness for C2: a depth-two chain under the root scope `app`, which is
active only through global enablement; the grandchild is active. -/
theorem ancestor_active_descendant_active_witness :
    Scope.isActive (.child "app.x.y" [] none (.child "app.x" [] none (.root "app" [] none)))
      ⟨none, none, none⟩ [] ⟨["app"], []⟩ = true :=
  ancestor_active_descendant_active ⟨none, none, none⟩ [] ⟨["app"], []⟩
    (IsAncestor.trans rfl (IsAncestor.parent rfl)) (by decide)

/-- C5: `isActive` returns true exactly when at least one of the five
signals holds — context-local enablement entry true, name in the global
enablement store, parent active, current level at or above the declared
minimum, or a declared environment variable set — so the check order never
changes the boolean result. -/
theorem isActive_iff_signals (s : Scope) (ctx : Ctx) (h : CtxHeap) (g : GlobalEnv) :
    s.isActive ctx h g = true ↔
      (ctxEnabled s.name ctx h = true ∨ globalEnabled s.name g = true ∨
        (∃ p, s.parentScope = some p ∧ p.isActive ctx h g = true) ∨
        levelActive s.logLevel ctx = true ∨ envActive s.envVars g = true) := by
  cases s <;>
    simp [Scope.isActive, Scope.name, Scope.logLevel, Scope.envVars, Scope.parentScope,
      Bool.or_eq_true] <;>
    tauto

/-! ## Claims about the registry -/

/-- C3: a second `NewScope` call with an already registered name returns the
very record the first call registered (the same arena index) and leaves the
whole registry untouched — the second call's options are ignored. -/
theorem newScope_idempotent (reg : Registry) (n : String)
    (opts1 opts2 : List ScopeOption) :
    NewScope (NewScope reg n opts1).2 n opts2 = NewScope reg n opts1 := by
  unfold NewScope
  cases hl : reg.scopes.lookup n with
  | some id => simp [hl]
  | none => simp [hl, List.lookup]

/-! ## Claims about logger resolution -/

/-- C4: when the supplied scope is inactive, `From` returns the discard
logger with the random pool untouched (no draw, no refill) and without
invoking the condition thunk, whatever other options were supplied. -/
theorem from_inactive_scope_short_circuits (ctx : Ctx) (h : CtxHeap) (g : GlobalEnv)
    (opts : List FromOption) (rp : RandPool) (entropy : Option (List Nat))
    (fastDraw : ℚ) (s : Scope) (hs : (buildConfig opts).scope = some s)
    (hin : s.isActive ctx h g = false) :
    From ctx h g opts rp entropy fastDraw = (Logger.discard, rp, false) := by
  simp only [From, hs, hin, createDiscardLogger, Bool.false_eq_true, if_false]

/-- Witness for C4: an inactive root scope together with a sampling rate;
`From` discards, the pool keeps its buffer and cursor, the condition flag
stays false. -/
theorem from_inactive_scope_short_circuits_witness :
    From ⟨none, none, none⟩ [] ⟨[], []⟩ [scopeOption (.root "w" [] none), WithSampling 0]
      ⟨[5], 0⟩ none 0 = (Logger.discard, ⟨[5], 0⟩, false) :=
  from_inactive_scope_short_circuits ⟨none, none, none⟩ [] ⟨[], []⟩
    [scopeOption (.root "w" [] none), WithSampling 0] ⟨[5], 0⟩ none 0
    (.root "w" [] none) (by decide) (by decide)

/-! ## Claims about the sampling engine -/

/-- C9: every `uint64` word drawn from the pool maps into `[0, 1)`: the
scaled shifted word is nonnegative, and below `1` even for the maximum
word. -/
theorem wordToFloat_in_unit_interval (w : Nat) (hw : w < 2 ^ 64) :
    0 ≤ wordToFloat w ∧ wordToFloat w < 1 :=
  ⟨wordToFloat_nonneg w, wordToFloat_lt_one w hw⟩

/-- Witness for C9 at the maximum `uint64` word. -/
theorem wordToFloat_in_unit_interval_witness :
    0 ≤ wordToFloat (2 ^ 64 - 1) ∧ wordToFloat (2 ^ 64 - 1) < 1 :=
  wordToFloat_in_unit_interval (2 ^ 64 - 1) (by norm_num)

/-- C1 counterexample: the secure source can draw the word `0` (any word
below `2 ^ 11` shifts to `0`, and the refill-failure sentinel is `0` too),
whose scaled value is exactly `0.0`; with rate `0.0` the code discards only
when `randVal > rate`, and `0 > 0` is false, so `From` keeps the logger
instead of discarding. -/
theorem rate_zero_keeps_on_zero_draw :
    (From ⟨none, none, none⟩ [] ⟨[], []⟩ [WithSampling 0] ⟨[0], 0⟩ none 0).1 ≠
      Logger.discard := by
  decide

/-- C1 amended: with rate `0.0`, `From` discards exactly when the draw is
strictly positive — the possible draw `0.0` is kept — for either random
source; with rate `1.0` it never discards due to sampling (the secure draw
is always below `1`, and the fast draw is assumed in `[0, 1)`). -/
theorem sampling_rate_zero_one_amended (ctx : Ctx) (h : CtxHeap) (g : GlobalEnv)
    (rp : RandPool) (entropy : Option (List Nat)) (fastDraw : ℚ)
    (hf0 : 0 ≤ fastDraw) (hf1 : fastDraw < 1) :
    ((From ctx h g [WithSampling 0] rp entropy fastDraw).1 = Logger.discard ↔
        0 < (cryptoRandFloat64 rp entropy).1) ∧
    ((From ctx h g [WithSampling 0, WithFastRand] rp entropy fastDraw).1 = Logger.discard ↔
        0 < fastDraw) ∧
    (From ctx h g [WithSampling 1] rp entropy fastDraw).1 ≠ Logger.discard ∧
    (From ctx h g [WithSampling 1, WithFastRand] rp entropy fastDraw).1 ≠ Logger.discard := by
  refine ⟨?_, ?_, ?_, ?_⟩
  · rw [from_sampling_secure]
    by_cases hc : (0 : ℚ) < (cryptoRandFloat64 rp entropy).1 <;> simp [hc]
  · rw [from_sampling_fast]
    by_cases hc : (0 : ℚ) < fastDraw <;> simp [hc]
  · rw [from_sampling_secure]
    have := cryptoDraw_lt_one rp entropy
    rw [if_neg (by push_neg; exact le_of_lt this)]
    simp
  · rw [from_sampling_fast]
    rw [if_neg (by push_neg; exact le_of_lt hf1)]
    simp

/-- Witness for C1 amended: pool word `2 ^ 11` (draw `2 ^ -53`, positive)
and fast draw `1 / 2`. -/
theorem sampling_rate_zero_one_amended_witness :
    ((From ⟨none, none, none⟩ [] ⟨[], []⟩ [WithSampling 0] ⟨[2 ^ 11], 0⟩ none (1 / 2)).1 =
        Logger.discard ↔
      0 < (cryptoRandFloat64 ⟨[2 ^ 11], 0⟩ none).1) ∧
    ((From ⟨none, none, none⟩ [] ⟨[], []⟩ [WithSampling 0, WithFastRand] ⟨[2 ^ 11], 0⟩ none
          (1 / 2)).1 = Logger.discard ↔
      0 < (1 / 2 : ℚ)) ∧
    (From ⟨none, none, none⟩ [] ⟨[], []⟩ [WithSampling 1] ⟨[2 ^ 11], 0⟩ none (1 / 2)).1 ≠
      Logger.discard ∧
    (From ⟨none, none, none⟩ [] ⟨[], []⟩ [WithSampling 1, WithFastRand] ⟨[2 ^ 11], 0⟩ none
        (1 / 2)).1 ≠ Logger.discard :=
  sampling_rate_zero_one_amended ⟨none, none, none⟩ [] ⟨[], []⟩ ⟨[2 ^ 11], 0⟩ none (1 / 2)
    (by norm_num) (by norm_num)

/-- C7: when the buffer is exhausted and the secure source fails, the pool
hands out the sentinel word `0` with the pool state untouched and no error
anywhere in the signature; the corresponding draw is `0.0`, and a `From`
call with sampling still returns a logger — discard exactly when
`0 > rate` — so the crypto failure is invisible to the caller. -/
theorem refill_failure_sentinel (rp : RandPool) (ctx : Ctx) (h : CtxHeap)
    (g : GlobalEnv) (fastDraw : ℚ) (rate : ℚ)
    (hex : rp.buffer.length ≤ rp.pos) :
    RandPool.getUint64 rp none = (0, rp) ∧
    cryptoRandFloat64 rp none = (0, rp) ∧
    From ctx h g [WithSampling rate] rp none fastDraw =
      (if (0 : ℚ) > rate then Logger.discard else Logger.live (ctx.logger.getD 0) none,
        rp, false) := by
  have h1 : RandPool.getUint64 rp none = (0, rp) := by
    unfold RandPool.getUint64
    rw [if_pos hex]
  have h2 : cryptoRandFloat64 rp none = (0, rp) := by
    unfold cryptoRandFloat64
    rw [h1]
    simp [wordToFloat]
  refine ⟨h1, h2, ?_⟩
  rw [from_sampling_secure, h2]

/-- Witness for C7: an exhausted two-word pool and rate `1 / 2`: the
sentinel `0` is handed out, the pool is unchanged, and `From` keeps. -/
theorem refill_failure_sentinel_witness :
    RandPool.getUint64 ⟨[3, 4], 2⟩ none = (0, ⟨[3, 4], 2⟩) ∧
    cryptoRandFloat64 ⟨[3, 4], 2⟩ none = (0, ⟨[3, 4], 2⟩) ∧
    From ⟨none, none, none⟩ [] ⟨[], []⟩ [WithSampling (1 / 2)] ⟨[3, 4], 2⟩ none 0 =
      (if (0 : ℚ) > 1 / 2 then Logger.discard else Logger.live 0 none,
        ⟨[3, 4], 2⟩, false) :=
  refill_failure_sentinel ⟨[3, 4], 2⟩ ⟨none, none, none⟩ [] ⟨[], []⟩ 0 (1 / 2)
    (by decide)

/-- C10: `WithSampling` stores the rate unvalidated and unclamped; a
negative rate discards for every possible draw of either source (every draw
is at least `0`, hence above the rate), and a rate at or above `1` never
discards due to sampling (every draw is below `1`, hence at most the
rate). -/
theorem sampling_unvalidated_rates (ctx : Ctx) (h : CtxHeap) (g : GlobalEnv)
    (rp : RandPool) (entropy : Option (List Nat)) (fastDraw : ℚ) (rate : ℚ)
    (hf0 : 0 ≤ fastDraw) (hf1 : fastDraw < 1) :
    (buildConfig [WithSampling rate]).sampling = some rate ∧
    (rate < 0 →
      (From ctx h g [WithSampling rate] rp entropy fastDraw).1 = Logger.discard ∧
      (From ctx h g [WithSampling rate, WithFastRand] rp entropy fastDraw).1 =
        Logger.discard) ∧
    (1 ≤ rate →
      (From ctx h g [WithSampling rate] rp entropy fastDraw).1 ≠ Logger.discard ∧
      (From ctx h g [WithSampling rate, WithFastRand] rp entropy fastDraw).1 ≠
        Logger.discard) := by
  refine ⟨rfl, fun hneg => ⟨?_, ?_⟩, fun hone => ⟨?_, ?_⟩⟩
  · rw [from_sampling_secure,
      if_pos (lt_of_lt_of_le hneg (cryptoDraw_nonneg rp entropy))]
  · rw [from_sampling_fast, if_pos (lt_of_lt_of_le hneg hf0)]
  · rw [from_sampling_secure,
      if_neg (not_lt.mpr (le_of_lt (lt_of_lt_of_le (cryptoDraw_lt_one rp entropy) hone)))]
    simp
  · rw [from_sampling_fast,
      if_neg (not_lt.mpr (le_of_lt (lt_of_lt_of_le hf1 hone)))]
    simp

/-- Witness for C10 at the rates `-1` and `2`, pool word `2 ^ 63`, fast
draw `1 / 2`. -/
theorem sampling_unvalidated_rates_witness :
    (From ⟨none, none, none⟩ [] ⟨[], []⟩ [WithSampling (-1)] ⟨[2 ^ 63], 0⟩ none (1 / 2)).1 =
      Logger.discard ∧
    (From ⟨none, none, none⟩ [] ⟨[], []⟩ [WithSampling 2] ⟨[2 ^ 63], 0⟩ none (1 / 2)).1 ≠
      Logger.discard := by
  constructor
  · exact ((sampling_unvalidated_rates ⟨none, none, none⟩ [] ⟨[], []⟩ ⟨[2 ^ 63], 0⟩ none
      (1 / 2) (-1) (by norm_num) (by norm_num)).2.1 (by norm_num)).1
  · exact ((sampling_unvalidated_rates ⟨none, none, none⟩ [] ⟨[], []⟩ ⟨[2 ^ 63], 0⟩ none
      (1 / 2) 2 (by norm_num) (by norm_num)).2.2 (by norm_num)).1

/-! ## C6: copy-on-write context enablement -/

theorem readCtxMap_append (h : CtxHeap) (m : EnableMap) (ctx : Ctx)
    (href : ∀ i, ctx.scopesRef = some i → i < h.length) :
    readCtxMap (h ++ [m]) ctx = readCtxMap h ctx := by
  unfold readCtxMap
  cases hr : ctx.scopesRef with
  | none => rfl
  | some r => exact List.getElem?_append_left (href r hr)

theorem ctxEnabled_append (n : String) (ctx : Ctx) (h : CtxHeap) (m : EnableMap)
    (href : ∀ i, ctx.scopesRef = some i → i < h.length) :
    ctxEnabled n ctx (h ++ [m]) = ctxEnabled n ctx h := by
  unfold ctxEnabled
  rw [readCtxMap_append h m ctx href]

/-- Appending a fresh heap cell changes no activation decision made through
an existing context. -/
theorem isActive_heap_append (s : Scope) (ctx : Ctx) (h : CtxHeap) (m : EnableMap)
    (g : GlobalEnv) (href : ∀ i, ctx.scopesRef = some i → i < h.length) :
    s.isActive ctx (h ++ [m]) g = s.isActive ctx h g := by
  induction s with
  | root n ev ll => simp [Scope.isActive, ctxEnabled_append n ctx h m href]
  | child n ev ll p ih => simp [Scope.isActive, ctxEnabled_append n ctx h m href, ih]

theorem lookup_filter_ne (m : EnableMap) (k k2 : String) (hne : k2 ≠ k) :
    (m.filter (fun p => p.1 != k)).lookup k2 = m.lookup k2 := by
  induction m with
  | nil => rfl
  | cons a t ih =>
      by_cases ha : a.1 = k
      · have hb : (k2 == a.1) = false := by
          simp [ha, hne]
        have hb3 : (k2 == k) = false := by
          simp [hne]
        simp [List.filter_cons, ha, List.lookup, hb, hb3, ih]
      · have hb : (a.1 != k) = true := by
          simp [ha]
        by_cases hk2 : k2 = a.1
        · simp [List.filter_cons, hb, List.lookup, hk2]
        · have hb2 : (k2 == a.1) = false := by
            simp [hk2]
          simp [List.filter_cons, hb, List.lookup, hb2, ih]

theorem lookup_mapSet_self (m : EnableMap) (k : String) (v : Bool) :
    (mapSet m k v).lookup k = some v := by
  simp [mapSet, List.lookup]

theorem lookup_mapSet_ne (m : EnableMap) (k k2 : String) (v : Bool) (hne : k2 ≠ k) :
    (mapSet m k v).lookup k2 = m.lookup k2 := by
  have hb : (k2 == k) = false := by
    simp [hne]
  simp [mapSet, List.lookup, hb, lookup_filter_ne m k k2 hne]

/-- Evaluation of `EnableScope` for one scope: the new map is the cloned
map of the original context extended at the scope's name, stored in a fresh
cell at the end of the heap; the derived context points at that cell. -/
theorem enableScope_eq (h : CtxHeap) (ctx : Ctx) (a : Scope) :
    EnableScope h ctx [a] =
      (h ++ [mapSet ((readCtxMap h ctx).getD []) a.name true],
        { ctx with scopesRef := some h.length }) := by
  unfold EnableScope
  cases hm : readCtxMap h ctx <;> simp [hm, List.foldl]

/-- C6: `EnableScope` is non-destructive: every heap cell the original
context could reach is unchanged (the map is cloned, then extended in a
fresh cell), the derived context sees the scope's name mapped to `true`
while every other name keeps its old value, and the scope stays inactive
when `isActive` is queried against the original context, absent other
activation signals. -/
theorem enableScope_nondestructive (h : CtxHeap) (ctx : Ctx) (a : Scope) (g : GlobalEnv)
    (r : Nat) (k : String)
    (href : ∀ i, ctx.scopesRef = some i → i < h.length)
    (hr : r < h.length) (hk : k ≠ a.name)
    (hinactive : a.isActive ctx h g = false) :
    (EnableScope h ctx [a]).1[r]? = h[r]? ∧
    ((readCtxMap (EnableScope h ctx [a]).1 (EnableScope h ctx [a]).2).getD []).lookup a.name
      = some true ∧
    ((readCtxMap (EnableScope h ctx [a]).1 (EnableScope h ctx [a]).2).getD []).lookup k
      = ((readCtxMap h ctx).getD []).lookup k ∧
    a.isActive ctx (EnableScope h ctx [a]).1 g = false := by
  rw [enableScope_eq]
  have hread : readCtxMap
      (h ++ [mapSet ((readCtxMap h ctx).getD []) a.name true])
      { ctx with scopesRef := some h.length } =
      some (mapSet ((readCtxMap h ctx).getD []) a.name true) := by
    unfold readCtxMap
    simp
  refine ⟨List.getElem?_append_left hr, ?_, ?_, ?_⟩
  · rw [hread]
    exact lookup_mapSet_self _ _ _
  · rw [hread]
    exact lookup_mapSet_ne _ _ _ _ hk
  · rw [isActive_heap_append a ctx h _ g href]
    exact hinactive

/-- Witness for C6: one existing heap cell, a context pointing at it, and
the scope `a`; after `EnableScope` the old cell is intact, the derived
context resolves `a` as enabled and `b` as before, and `a` is still
inactive through the original context. -/
theorem enableScope_nondestructive_witness :
    (EnableScope [[("b", true)]] ⟨some 0, none, none⟩ [.root "a" [] none]).1[0]? =
      ([[("b", true)]] : CtxHeap)[0]? ∧
    ((readCtxMap (EnableScope [[("b", true)]] ⟨some 0, none, none⟩ [.root "a" [] none]).1
        (EnableScope [[("b", true)]] ⟨some 0, none, none⟩ [.root "a" [] none]).2).getD
          []).lookup "a" = some true ∧
    ((readCtxMap (EnableScope [[("b", true)]] ⟨some 0, none, none⟩ [.root "a" [] none]).1
        (EnableScope [[("b", true)]] ⟨some 0, none, none⟩ [.root "a" [] none]).2).getD
          []).lookup "b" =
      ((readCtxMap [[("b", true)]] ⟨some 0, none, none⟩).getD []).lookup "b" ∧
    Scope.isActive (.root "a" [] none) ⟨some 0, none, none⟩
      (EnableScope [[("b", true)]] ⟨some 0, none, none⟩ [.root "a" [] none]).1
      ⟨[], []⟩ = false :=
  enableScope_nondestructive [[("b", true)]] ⟨some 0, none, none⟩ (.root "a" [] none)
    ⟨[], []⟩ 0 "b"
    (by intro i hi; injection hi with hi2; subst hi2; decide)
    (by decide) (by decide) (by decide)

/-! ## C8: child creation -/

theorem lookup_mem {l : List (String × Nat)} {k : String} {v : Nat}
    (h : l.lookup k = some v) : (k, v) ∈ l := by
  induction l with
  | nil => simp [List.lookup] at h
  | cons a t ih =>
      obtain ⟨a1, a2⟩ := a
      simp only [List.lookup] at h
      by_cases hk : (k == a1) = true
      · rw [hk] at h
        simp only [Option.some.injEq] at h
        subst h
        have : k = a1 := eq_of_beq hk
        subst this
        exact List.mem_cons_self _ _
      · rw [Bool.not_eq_true] at hk
        rw [hk] at h
        exact List.mem_cons_of_mem _ (ih h)

theorem getD_set_self (l : List ScopeData) (i : Nat) (a : ScopeData)
    (hi : i < l.length) : (l.set i a).getD i default = a := by
  simp [List.getD_eq_getElem?_getD, List.getElem?_set_self hi]

theorem getD_set_ne (l : List ScopeData) (i j : Nat) (a : ScopeData)
    (hij : i ≠ j) : (l.set i a).getD j default = l.getD j default := by
  simp [List.getD_eq_getElem?_getD, List.getElem?_set_ne hij]

theorem getD_append_left (l l2 : List ScopeData) (i : Nat)
    (hi : i < l.length) : (l ++ l2).getD i default = l.getD i default := by
  simp [List.getD_eq_getElem?_getD, List.getElem?_append_left hi]

/-- A dotted child name is never the parent's own name. -/
theorem dotted_name_ne (pname n : String) : pname ++ "." ++ n ≠ pname := by
  intro hcon
  have hlen := congrArg String.length hcon
  simp only [String.length_append] at hlen
  have h1 : ("." : String).length = 1 := rfl
  omega

/-- C8 counterexample: after registering root `p` and calling
`p.NewChild("c")` twice, the child record (index 1) appears twice in `p`'s
children list — the membership entry is recorded on every call, not only on
first creation of the full name. -/
theorem newChild_second_call_appends_again :
    (((NewChild (NewChild (NewScope ⟨[], []⟩ "p" []).2 0 "c" []).2 0 "c" []).2).store.getD 0
        default).children = [1, 1] := by
  decide

/-- C8 amended: `NewChild` returns the scope registered under the full name
`parent.name ++ "." ++ child`, resolvable through the registry, and on
every call — not only the first — it (re)assigns the child's parent link
and appends the child to the parent's child-membership list. -/
theorem newChild_registers_and_links (reg : Registry) (pid : Nat) (n : String)
    (opts : List ScopeOption) (hwf : reg.WF) (hpid : pid < reg.store.length) :
    (NewChild reg pid n opts).2.scopes.lookup ((reg.store.getD pid default).name ++ "." ++ n)
      = some (NewChild reg pid n opts).1 ∧
    ((NewChild reg pid n opts).2.store.getD (NewChild reg pid n opts).1 default).parentId
      = some pid ∧
    ((NewChild reg pid n opts).2.store.getD pid default).children
      = (reg.store.getD pid default).children ++ [(NewChild reg pid n opts).1] := by
  have hfne : (reg.store.getD pid default).name ++ "." ++ n ≠
      (reg.store.getD pid default).name := dotted_name_ne _ _
  unfold NewChild
  cases hl : reg.scopes.lookup ((reg.store.getD pid default).name ++ "." ++ n) with
  | some cid =>
      obtain ⟨hcidlt, hcidname⟩ := hwf _ (lookup_mem hl)
      have hne : pid ≠ cid := by
        intro he
        rw [← he] at hcidname
        exact hfne hcidname.symm
      simp only [NewScope, hl, Registry.setParent, Registry.appendChild]
      refine ⟨by simp [hl], ?_, ?_⟩
      · rw [getD_set_ne _ pid cid _ hne, getD_set_self _ cid _ hcidlt]
      · rw [getD_set_self _ pid _ (by simpa using hpid),
          getD_set_ne _ cid pid _ (Ne.symm hne)]
  | none =>
      have hne : pid ≠ reg.store.length := Nat.ne_of_lt hpid
      simp only [NewScope, hl, Registry.setParent, Registry.appendChild]
      refine ⟨?_, ?_, ?_⟩
      · simp [List.lookup]
      · rw [getD_set_ne _ pid _ _ hne,
          getD_set_self _ _ _ (by
            simp only [List.length_append, List.length_cons, List.length_nil]
            omega)]
      · rw [getD_set_self _ pid _ (by
            simp only [List.length_set, List.length_append, List.length_cons,
              List.length_nil]
            omega),
          getD_set_ne _ _ pid _ (Ne.symm hne),
          getD_append_left _ _ _ hpid]

/-- Witness for C8 amended: registry holding only the root `p`; one
`NewChild` call registers `p.c`, links its parent, and appends it to `p`'s
children. -/
theorem newChild_registers_and_links_witness :
    (NewChild (NewScope ⟨[], []⟩ "p" []).2 0 "c" []).2.scopes.lookup
        (((NewScope ⟨[], []⟩ "p" []).2.store.getD 0 default).name ++ "." ++ "c")
      = some (NewChild (NewScope ⟨[], []⟩ "p" []).2 0 "c" []).1 ∧
    ((NewChild (NewScope ⟨[], []⟩ "p" []).2 0 "c" []).2.store.getD
        (NewChild (NewScope ⟨[], []⟩ "p" []).2 0 "c" []).1 default).parentId = some 0 ∧
    ((NewChild (NewScope ⟨[], []⟩ "p" []).2 0 "c" []).2.store.getD 0 default).children
      = (((NewScope ⟨[], []⟩ "p" []).2.store.getD 0 default)).children ++
        [(NewChild (NewScope ⟨[], []⟩ "p" []).2 0 "c" []).1] :=
  newChild_registers_and_links (NewScope ⟨[], []⟩ "p" []).2 0 "c" [] (by decide) (by decide)

end Ctxlog
